import Mathlib

/-!
Verification of the stochastic linearization engine and dynamics adapters of
the `dilqr_rs` repository, against its natural-language specification.

The Python sources are shallowly embedded over `ℚ`:
  * numpy vectors of length `n` become `Fin n → ℚ`, numpy 2-d arrays become
    `Matrix (Fin m) (Fin n) ℚ`; the concatenated `x,u` column index of the
    linearization matrices is modelled by the sum type `Fin nx ⊕ Fin nu`
    (first the `nx` state columns, then the `nu` control columns);
  * the external collaborators (the Drake simulator step, its autodiff
    Jacobian, `np.sin` / `torch.cos` ...) are fields of the model
    structures: the estimators under verification only ever call them;
  * the random perturbation draws (`np.random.normal`) are explicit
    arguments, one row per sample, as usual for embedding sampled code;
  * `np.linalg.lstsq` is an explicit functional argument `lstsq`; where a
    claim needs properties of it, they are stated as hypotheses
    (`IsLstsqSol`, the residual-minimizer contract of `lstsq`).
-/

namespace DilqrRs

/-- A length-`n` numpy vector of doubles, embedded over `ℚ`. -/
abbrev Vec (n : ℕ) := Fin n → ℚ

/-- Column index of the concatenated `[A, B]` linearization matrices:
first the `nx` state columns, then the `nu` control columns. -/
abbrev XU (nx nu : ℕ) := Fin nx ⊕ Fin nu

/-- Squared Frobenius norm of a rational matrix; `np.linalg.lstsq`
minimizes this residual. -/
def frob {I J : Type} [Fintype I] [Fintype J] (M : Matrix I J ℚ) : ℚ :=
  ∑ i, ∑ j, (M i j) ^ 2

/-- Predicate: `M` is a least-squares solution of `S · M ≈ R`: it minimizes the squared
residual among all candidate matrices.  This is the contract of
`np.linalg.lstsq` (whose returned solution is the minimum-norm minimizer). -/
def IsLstsqSol {I J K : Type} [Fintype I] [Fintype J] [Fintype K]
    (S : Matrix I J ℚ) (R : Matrix I K ℚ) (M : Matrix J K ℚ) : Prop :=
  ∀ N : Matrix J K ℚ, frob (S * M - R) ≤ frob (S * N - R)

/-- The estimation failure that the spec's error taxonomy requires for a
rank-deficient zero-order joint estimation with no damping. -/
inductive EstimationError : Type
  | rankDeficiency : EstimationError
deriving DecidableEq, Repr

end DilqrRs

namespace MbpDynamics

open DilqrRs Matrix

/-- Functional model of the `MbpDynamics` collaborator surface used by the
estimators (`src/irs_lqr/mbp_dynamics.py`):
  * `dynamics` is the one-step transition `self.dynamics(x, u)` (set the
    plant state from `x`, fix the actuation input from `u`, advance the
    simulator by `h`, read back the state) — per the spec's interface
    contract, `step` is deterministic in `(x, u)`;
  * `jacobian_xu` is the exact autodiff Jacobian `self.jacobian_xu(x, u)`
    of the one-step transition with respect to the concatenated `(x, u)`. -/
structure Model (nx nu : ℕ) where
  dynamics : Vec nx → Vec nu → Vec nx
  jacobian_xu : Vec nx → Vec nu → Matrix (Fin nx) (XU nx nu) ℚ

/-- Method `calc_AB_exact` (line 208): the exact Jacobian at the nominal pair. -/
def calc_AB_exact {nx nu : ℕ} (m : Model nx nu) (x_nominal : Vec nx)
    (u_nominal : Vec nu) : Matrix (Fin nx) (XU nx nu) ℚ :=
  m.jacobian_xu x_nominal u_nominal

/-- Method `calc_AB_first_order` (lines 211-224): accumulate the Jacobians at the
`n_samples` perturbed controls then divide elementwise by `n_samples`.
The normal draws `du` are explicit arguments. -/
def calc_AB_first_order {nx nu : ℕ} (m : Model nx nu) {n_samples : ℕ}
    (x_nominal : Vec nx) (u_nominal : Vec nu)
    (du : Fin n_samples → Vec nu) : Matrix (Fin nx) (XU nx nu) ℚ :=
  let ABhat := (List.finRange n_samples).foldl
    (fun acc i => acc + m.jacobian_xu x_nominal (u_nominal + du i)) 0
  Matrix.of fun i j => ABhat i j / (n_samples : ℚ)

/-- The first `n_samples` rows of the stacked regression system of
`calc_AB_zero_order`: row `i` is the concatenation `[dx_i, du_i]`
(lines 309-310 of `mbp_dynamics.py`). -/
def zoTop {nx nu n_samples : ℕ} (dx : Fin n_samples → Vec nx)
    (du : Fin n_samples → Vec nu) : Matrix (Fin n_samples) (XU nx nu) ℚ :=
  Matrix.of fun i => Sum.elim (dx i) (du i)

/-- The stacked left-hand-side matrix `A` built by `calc_AB_zero_order`
(lines 308-311): first `n_samples` rows `[dx_i, du_i]`, then the
`n_x + n_u` damping rows `np.eye(n_x + n_u) * damp`. -/
def zoStack {nx nu n_samples : ℕ} (dx : Fin n_samples → Vec nx)
    (du : Fin n_samples → Vec nu) (damp : ℚ) :
    Matrix (Fin n_samples ⊕ XU nx nu) (XU nx nu) ℚ :=
  Matrix.of fun r c =>
    match r with
    | Sum.inl i =>
      match c with
      | Sum.inl j => dx i j
      | Sum.inr j => du i j
    | Sum.inr i => if i = c then damp else 0

/-- The stacked right-hand-side matrix `B` built by `calc_AB_zero_order`
(lines 300-313): first `n_samples` rows
`dynamics(x + dx_i, u + du_i) - dynamics(x, u)`, then `n_x + n_u` zero
rows facing the damping block. -/
def zoRhs {nx nu : ℕ} (m : Model nx nu) {n_samples : ℕ}
    (x_nominal : Vec nx) (u_nominal : Vec nu)
    (dx : Fin n_samples → Vec nx) (du : Fin n_samples → Vec nu) :
    Matrix (Fin n_samples ⊕ XU nx nu) (Fin nx) ℚ :=
  Matrix.of fun r j =>
    match r with
    | Sum.inl i =>
      m.dynamics (x_nominal + dx i) (u_nominal + du i) j
        - m.dynamics x_nominal u_nominal j
    | Sum.inr _ => 0

/-- Method `calc_AB_zero_order` (lines 285-317): build the stacked damped system
and return the transpose of its least-squares solution.  The state and
control draws `dx, du` and the `np.linalg.lstsq` solver are explicit
arguments; the source never raises on rank deficiency — `lstsq` is applied
unconditionally. -/
def calc_AB_zero_order {nx nu : ℕ} (m : Model nx nu) {n_samples : ℕ}
    (lstsq : Matrix (Fin n_samples ⊕ XU nx nu) (XU nx nu) ℚ →
      Matrix (Fin n_samples ⊕ XU nx nu) (Fin nx) ℚ →
      Matrix (XU nx nu) (Fin nx) ℚ)
    (x_nominal : Vec nx) (u_nominal : Vec nu)
    (dx : Fin n_samples → Vec nx) (du : Fin n_samples → Vec nu)
    (damp : ℚ) : Matrix (Fin nx) (XU nx nu) ℚ :=
  (lstsq (zoStack dx du damp) (zoRhs m x_nominal u_nominal dx du))ᵀ

/-- Method `calc_B_zero_order` (lines 256-283): the `A` block is copied from the
first-order estimate (computed with its own control draws `du_A`); the `B`
block is the transposed least-squares solution of
`du · Bᵀ ≈ x_next - x_next_nominal` where `x_next_i` is the true one-step
dynamics at `(x_nominal, u_nominal + du_i)`. -/
def calc_B_zero_order {nx nu : ℕ} (m : Model nx nu) {n_samples : ℕ}
    (lstsq : Matrix (Fin n_samples) (Fin nu) ℚ →
      Matrix (Fin n_samples) (Fin nx) ℚ → Matrix (Fin nu) (Fin nx) ℚ)
    (x_nominal : Vec nx) (u_nominal : Vec nu)
    (du_A du : Fin n_samples → Vec nu) : Matrix (Fin nx) (XU nx nu) ℚ :=
  let x_next_nominal := m.dynamics x_nominal u_nominal
  let AB_first_order := calc_AB_first_order m x_nominal u_nominal du_A
  let dx_next : Matrix (Fin n_samples) (Fin nx) ℚ :=
    Matrix.of fun i j =>
      m.dynamics x_nominal (u_nominal + du i) j - x_next_nominal j
  Matrix.of fun i c =>
    match c with
    | Sum.inl j => AB_first_order i (Sum.inl j)
    | Sum.inr j => (lstsq du dx_next)ᵀ i j

/-- Method `calc_AB_batch` (lines 226-254): dispatch on the mode string; the
result array is initialized to zeros and only the four recognized modes
fill it in, so any other mode string returns it untouched.  The per-entry
perturbation draws are explicit indexed families. -/
def calc_AB_batch {nx nu : ℕ} (m : Model nx nu) {n n_samples : ℕ}
    (lstsqJ : Matrix (Fin n_samples ⊕ XU nx nu) (XU nx nu) ℚ →
      Matrix (Fin n_samples ⊕ XU nx nu) (Fin nx) ℚ →
      Matrix (XU nx nu) (Fin nx) ℚ)
    (lstsqB : Matrix (Fin n_samples) (Fin nu) ℚ →
      Matrix (Fin n_samples) (Fin nx) ℚ → Matrix (Fin nu) (Fin nx) ℚ)
    (x_nominals : Fin n → Vec nx) (u_nominals : Fin n → Vec nu)
    (dxs : Fin n → Fin n_samples → Vec nx)
    (dus : Fin n → Fin n_samples → Vec nu)
    (duAs : Fin n → Fin n_samples → Vec nu)
    (damp : ℚ) (mode : String) :
    Fin n → Matrix (Fin nx) (XU nx nu) ℚ :=
  if mode = "first_order" then
    fun i => calc_AB_first_order m (x_nominals i) (u_nominals i) (dus i)
  else if mode = "zero_order_B" then
    fun i => calc_B_zero_order m lstsqB (x_nominals i) (u_nominals i)
      (duAs i) (dus i)
  else if mode = "zero_order_AB" then
    fun i => calc_AB_zero_order m lstsqJ (x_nominals i) (u_nominals i)
      (dxs i) (dus i) damp
  else if mode = "exact" then
    fun i => calc_AB_exact m (x_nominals i) (u_nominals i)
  else
    fun _ => 0

/-- The stacked damped regression matrix exactly as the spec words it:
"the stacked system `[δx, δu] · [A;B]^T ≈ δx_next`" whose "first
n_samples rows are `[dx_i, du_i]`" and whose "remaining n_x + n_u rows are
`damp · I`". -/
def specStack {nx nu n_samples : ℕ} (dx : Fin n_samples → Vec nx)
    (du : Fin n_samples → Vec nu) (damp : ℚ) :
    Matrix (Fin n_samples ⊕ XU nx nu) (XU nx nu) ℚ :=
  Matrix.of fun r =>
    match r with
    | Sum.inl i => Sum.elim (dx i) (du i)
    | Sum.inr i => damp • (1 : Matrix (XU nx nu) (XU nx nu) ℚ) i

/-- The stacked right-hand side exactly as the spec words it: first
`n_samples` rows `f(x_nominal + dx_i, u_nominal + du_i) − f(x_nominal,
u_nominal)` (with `f` the one-step dynamics), remaining `n_x + n_u` rows
zero (the damping rows regress to `0`). -/
def specRhs {nx nu : ℕ} (m : Model nx nu) {n_samples : ℕ}
    (x_nominal : Vec nx) (u_nominal : Vec nu)
    (dx : Fin n_samples → Vec nx) (du : Fin n_samples → Vec nu) :
    Matrix (Fin n_samples ⊕ XU nx nu) (Fin nx) ℚ :=
  Matrix.of fun r =>
    match r with
    | Sum.inl i =>
      m.dynamics (x_nominal + dx i) (u_nominal + du i)
        - m.dynamics x_nominal u_nominal
    | Sum.inr _ => 0

/-- The zero-order joint estimation contract exactly as the spec words it:
"raises an estimation failure if `n_samples < n_x + n_u` in zero-order
joint mode and damping is not configured (rank-deficient system); falls
back to a well-defined damped solution otherwise".  A second, spec-side
definition used to compare the source behavior against the spec's demanded
behavior. -/
def calc_AB_zero_order_specContract {nx nu : ℕ} (m : Model nx nu)
    {n_samples : ℕ}
    (lstsq : Matrix (Fin n_samples ⊕ XU nx nu) (XU nx nu) ℚ →
      Matrix (Fin n_samples ⊕ XU nx nu) (Fin nx) ℚ →
      Matrix (XU nx nu) (Fin nx) ℚ)
    (x_nominal : Vec nx) (u_nominal : Vec nu)
    (dx : Fin n_samples → Vec nx) (du : Fin n_samples → Vec nu)
    (damp : ℚ) :
    Except DilqrRs.EstimationError (Matrix (Fin nx) (XU nx nu) ℚ) :=
  if n_samples < nx + nu ∧ damp = 0 then
    Except.error EstimationError.rankDeficiency
  else
    Except.ok
      ((lstsq (zoStack dx du damp) (zoRhs m x_nominal u_nominal dx du))ᵀ)

/-- Model of the hidden Drake simulator surface that the stateful
`MbpDynamics.dynamics` / `dynamics_py` methods manipulate
(lines 123-167 of `mbp_dynamics.py`):
  * `set_positions_and_inputs` models `update_mbp_positions_and_velocities`
    (via `get_q_dict_from_x`) followed by `update_mbp_inputs`
    (via `get_q_a_cmd_dict_from_u`);
  * `advance_to` models `self.simulator.AdvanceTo(t)`;
  * `get_positions_and_velocities` models
    `self.plant.GetPositionsAndVelocities(self.context_plant)`. -/
structure SimModel (nx nu : ℕ) (S : Type) where
  h : ℚ
  set_positions_and_inputs : S → Vec nx → Vec nu → S
  advance_to : S → ℚ → S
  get_positions_and_velocities : S → Vec nx

/-- The adapter state mutated by `dynamics` / `dynamics_py`: the hidden
simulator state and the running clock `self.simulator_time`. -/
structure SimState (S : Type) where
  sim : S
  simulator_time : ℚ

/-- Method `MbpDynamics.dynamics_py` (lines 123-144), in state-passing style:
returns the next state together with the updated adapter state.  The
`mode` and `requires_grad` arguments are accepted and ignored, as in the
source. -/
def dynamics_py {nx nu : ℕ} {S : Type} (m : SimModel nx nu S)
    (st : SimState S) (x : Vec nx) (u : Vec nu)
    (mode : String) (requires_grad : Bool) : Vec nx × SimState S :=
  let s1 := m.set_positions_and_inputs st.sim x u
  let t := st.simulator_time + m.h
  let s2 := m.advance_to s1 t
  (m.get_positions_and_velocities s2, ⟨s2, t⟩)

/-- Method `MbpDynamics.dynamics` (lines 146-167), in state-passing style; the
body is the same as `dynamics_py` without the `mode` parameter. -/
def dynamics {nx nu : ℕ} {S : Type} (m : SimModel nx nu S)
    (st : SimState S) (x : Vec nx) (u : Vec nu)
    (requires_grad : Bool) : Vec nx × SimState S :=
  let s1 := m.set_positions_and_inputs st.sim x u
  let t := st.simulator_time + m.h
  let s2 := m.advance_to s1 t
  (m.get_positions_and_velocities s2, ⟨s2, t⟩)

end MbpDynamics

namespace PendulumDynamics

open DilqrRs

/-- Model of `PendulumDynamics` (`src/examples/pendulum/pendulum_dynamics.py`):
`dim_x = 2`, `dim_u = 1`, time step `dt`.  The transcendental functions
(`np.sin`, `torch.cos`, `torch.tan` — the same mathematical functions for
the numpy and torch paths) are abstract fields over `ℚ`. -/
structure Model where
  dt : ℚ
  sin : ℚ → ℚ
  cos : ℚ → ℚ
  tan : ℚ → ℚ

/-- Method `dynamics_np` (lines 42-56): semi-implicit Euler step of the pendulum. -/
def dynamics_np (p : Model) (x : Vec 2) (u : Vec 1) : Vec 2 :=
  let angle := x 0
  let speed := x 1
  let next_speed := speed + p.dt * (-p.sin angle + u 0)
  let next_angle := angle + p.dt * next_speed
  ![next_angle, next_speed]

/-- Method `dynamics_batch_np` (lines 58-77): the same semi-implicit step
vectorized over the batch dimension via numpy column operations. -/
def dynamics_batch_np (p : Model) {B : ℕ} (x : Fin B → Vec 2)
    (u : Fin B → Vec 1) : Fin B → Vec 2 :=
  let angle : Fin B → ℚ := fun b => x b 0
  let speed : Fin B → ℚ := fun b => x b 1
  let torque : Fin B → ℚ := fun b => u b 0
  let next_speed : Fin B → ℚ :=
    fun b => speed b + p.dt * (-p.sin (angle b) + torque b)
  let next_angle : Fin B → ℚ := fun b => angle b + p.dt * next_speed b
  fun b => ![next_angle b, next_speed b]

/-- Torch basic column indexing `t[:, j]` on a batch tensor whose second
dimension has size `n`: raises an out-of-bounds index error (here `none`)
unless `j < n`. -/
def torchCol {B n : ℕ} (t : Fin B → Vec n) (j : ℕ) : Option (Fin B → ℚ) :=
  if h : j < n then some (fun b => t b ⟨j, h⟩) else none

/-- Method `dynamics_batch_torch` (lines 80-104): reads bicycle-model columns
`x[:, 2]`, `x[:, 3]`, `x[:, 4]` and `u[:, 0]`, `u[:, 1]` from tensors of
the pendulum's declared shapes `(B, 2)` and `(B, 1)`; column accesses are
bounds-checked in evaluation order, so a failed access aborts the call. -/
def dynamics_batch_torch (p : Model) {B : ℕ} (x : Fin B → Vec 2)
    (u : Fin B → Vec 1) : Option (Fin B → Vec 2) :=
  match torchCol x 2 with
  | none => none
  | some heading =>
    match torchCol x 3 with
    | none => none
    | some v =>
      match torchCol x 4 with
      | none => none
      | some steer =>
        match torchCol u 0 with
        | none => none
        | some u0 =>
          match torchCol u 1 with
          | none => none
          | some u1 =>
            some (fun b =>
              let dxdt : Fin 5 → ℚ :=
                ![v b * p.cos (heading b), v b * p.sin (heading b),
                  v b * p.tan (steer b), u0 b, u1 b]
              fun j => x b j + p.dt * dxdt ⟨j.val, by omega⟩)

end PendulumDynamics

namespace QuasistaticDynamics

open DilqrRs

/-- Model of `QuasistaticDynamics`
(`src/two_spheres_quasistatic/quasistatic_dynamics.py`): the single-pair
`dynamics` method (configuration update, gravity/external forces, one
`q_sim.step`, decode — all through the external quasistatic-simulator
collaborator) as a one-step transition on flat vectors. -/
structure Model (nx nu : ℕ) where
  dynamics : Vec nx → Vec nu → Vec nx

/-- Method `dynamics_batch` (lines 96-110): allocate a zero array of `B` rows and
fill row `i` with `self.dynamics(x[i], u[i])`, in index order. -/
def dynamics_batch {nx nu : ℕ} (d : Model nx nu) {B : ℕ}
    (x : Fin B → Vec nx) (u : Fin B → Vec nu) : Fin B → Vec nx :=
  (List.finRange B).foldl
    (fun x_next i => Function.update x_next i (d.dynamics (x i) (u i)))
    (fun _ => fun _ => 0)

end QuasistaticDynamics

namespace DilqrRs

/-- Flatten a linearization matrix back to a numpy-style list of rows, the
`nx` state columns first, then the `nu` control columns. -/
def rowsOf {nx nu k : ℕ} (M : Matrix (Fin k) (XU nx nu) ℚ) :
    List (List ℚ) :=
  List.ofFn fun i : Fin k =>
    List.ofFn fun j : Fin (nx + nu) => M i (finSumFinEquiv.symm j)

/-- A list of rows has the numpy shape `(nr, nc)`. -/
def shapeOK (nr nc : ℕ) (rs : List (List ℚ)) : Prop :=
  rs.length = nr ∧ ∀ r ∈ rs, r.length = nc

/-! ### Concrete instances used by witnesses and counterexamples -/

/-- Concrete nominal state for the `n_x + n_u = 5`, `n_samples = 1`
rank-deficient scenario of the spec. -/
def xC1 : Vec 3 := fun _ => 0

/-- Concrete nominal control for the rank-deficient scenario. -/
def uC1 : Vec 2 := fun _ => 0

/-- One concrete state perturbation draw `(1, 0, 0)`. -/
def dxC1 : Fin 1 → Vec 3 := fun _ j => if j = 0 then 1 else 0

/-- One concrete (zero) control perturbation draw. -/
def duC1 : Fin 1 → Vec 2 := fun _ _ => 0

/-- A concrete dynamics collaborator with `n_x = 3`, `n_u = 2`:
the identity transition. -/
def mC1 : MbpDynamics.Model 3 2 :=
  ⟨fun x _ => x, fun _ _ => 0⟩

/-- The minimum-norm least-squares solution `np.linalg.lstsq` computes for
the concrete rank-deficient stacked system with zero damping: only the
first unknown row is determined by the single sample; the minimum-norm
choice zeroes the rest (see `lstsqC1_minimizes`). -/
def M0C1 : Matrix (XU 3 2) (Fin 3) ℚ :=
  Matrix.of fun r j =>
    match r with
    | Sum.inl i => if i = 0 ∧ j = 0 then 1 else 0
    | Sum.inr _ => 0

/-- Stand-in for `np.linalg.lstsq` at the one call site of the concrete rank-deficient
scenario: it returns the minimum-norm minimizer `M0C1`. -/
def lstsqC1 : Matrix (Fin 1 ⊕ XU 3 2) (XU 3 2) ℚ →
    Matrix (Fin 1 ⊕ XU 3 2) (Fin 3) ℚ → Matrix (XU 3 2) (Fin 3) ℚ :=
  fun _ _ => M0C1

/-- Concrete `A` matrix of a synthetic linear dynamics `x_next = A x + B u`. -/
def AC6 : Matrix (Fin 1) (Fin 1) ℚ := Matrix.of fun _ _ => 2

/-- Concrete `B` matrix of a synthetic linear dynamics. -/
def BC6 : Matrix (Fin 1) (Fin 1) ℚ := Matrix.of fun _ _ => 3

/-- A noise-free linear dynamics collaborator `x_next = A x + B u`. -/
def mC6 : MbpDynamics.Model 1 1 :=
  ⟨fun x u => AC6.mulVec x + BC6.mulVec u, fun _ _ => 0⟩

/-- Concrete nominal state for the linear-recovery witness. -/
def xC6 : Vec 1 := fun _ => 0

/-- Concrete nominal control for the linear-recovery witness. -/
def uC6 : Vec 1 := fun _ => 0

/-- Two concrete state perturbation draws `(1)` and `(0)`. -/
def dxC6 : Fin 2 → Vec 1 := fun i _ => if i = 0 then 1 else 0

/-- Two concrete control perturbation draws `(0)` and `(1)`; together with
`dxC6` the stacked `[dx, du]` matrix is the 2×2 identity, which has full
column rank. -/
def duC6 : Fin 2 → Vec 1 := fun i _ => if i = 1 then 1 else 0

/-- The exact solution `[A; B]ᵀ` of the concrete full-rank linear system. -/
def M0C6 : Matrix (XU 1 1) (Fin 1) ℚ :=
  Matrix.of fun r _ =>
    match r with
    | Sum.inl _ => 2
    | Sum.inr _ => 3

/-- Stand-in for `np.linalg.lstsq` at the one call site of the linear-recovery witness:
the system is consistent and full-column-rank, so the least-squares
solution is the exact solution `M0C6`. -/
def lstsqC6 : Matrix (Fin 2 ⊕ XU 1 1) (XU 1 1) ℚ →
    Matrix (Fin 2 ⊕ XU 1 1) (Fin 1) ℚ → Matrix (XU 1 1) (Fin 1) ℚ :=
  fun _ _ => M0C6

/-- Concrete scalar nominal state shared by small witnesses. -/
def xW : Vec 1 := fun _ => 0

/-- Concrete scalar nominal control shared by small witnesses. -/
def uW : Vec 1 := fun _ => 0

/-- One concrete (zero) control draw shared by small witnesses. -/
def duW : Fin 1 → Vec 1 := fun _ _ => 0

/-- A concrete scalar collaborator whose exact Jacobian is constantly `1`. -/
def mW : MbpDynamics.Model 1 1 :=
  ⟨fun x _ => x, fun _ _ => Matrix.of fun _ _ => 1⟩

/-- A concrete scalar collaborator with the same transition as `mW` but a
different (zero) Jacobian: used to witness that the zero-order `B` block
never consults the Jacobian. -/
def mW' : MbpDynamics.Model 1 1 :=
  ⟨fun x _ => x, fun _ _ => 0⟩

/-- A trivial `lstsq` stand-in for the scalar `B`-only regression. -/
def lstsqBW : Matrix (Fin 1) (Fin 1) ℚ → Matrix (Fin 1) (Fin 1) ℚ →
    Matrix (Fin 1) (Fin 1) ℚ :=
  fun _ _ => 0

/-- A trivial `lstsq` stand-in for the scalar joint regression. -/
def lstsqJW : Matrix (Fin 1 ⊕ XU 1 1) (XU 1 1) ℚ →
    Matrix (Fin 1 ⊕ XU 1 1) (Fin 1) ℚ → Matrix (XU 1 1) (Fin 1) ℚ :=
  fun _ _ => 0

end DilqrRs

/-! ### Helper lemmas -/

namespace DilqrRs

theorem foldl_add_eq_sum {α : Type} [AddCommMonoid α] {n : ℕ} (f : Fin n → α) :
    (List.finRange n).foldl (fun acc i => acc + f i) 0 = ∑ i, f i := by
  have h : ∀ (l : List (Fin n)) (c : α),
      l.foldl (fun acc i => acc + f i) c = c + (l.map f).sum := by
    intro l
    induction l with
    | nil => intro c; simp
    | cons a t ih => intro c; simp [List.foldl_cons, ih, add_assoc]
  rw [h, ← List.ofFn_eq_map, List.sum_ofFn]
  simp

theorem foldl_update_of_not_mem {β : Type} {B : ℕ} (g : Fin B → β)
    (l : List (Fin B)) (acc : Fin B → β) (i : Fin B) (hi : i ∉ l) :
    (l.foldl (fun a j => Function.update a j (g j)) acc) i = acc i := by
  induction l generalizing acc with
  | nil => rfl
  | cons a t ih =>
    rw [List.mem_cons] at hi
    push_neg at hi
    rw [List.foldl_cons, ih _ hi.2, Function.update_apply, if_neg hi.1]

theorem foldl_update_of_mem {β : Type} {B : ℕ} (g : Fin B → β)
    (l : List (Fin B)) (acc : Fin B → β) (i : Fin B) (hnd : l.Nodup)
    (hi : i ∈ l) :
    (l.foldl (fun a j => Function.update a j (g j)) acc) i = g i := by
  induction l generalizing acc with
  | nil => cases hi
  | cons a t ih =>
    rw [List.foldl_cons]
    rcases List.mem_cons.mp hi with h | h
    · subst h
      rw [foldl_update_of_not_mem g t _ i (List.nodup_cons.mp hnd).1]
      simp [Function.update_apply]
    · exact ih _ (List.nodup_cons.mp hnd).2 h

theorem rowsOf_shape {nx nu k : ℕ} (M : Matrix (Fin k) (XU nx nu) ℚ) :
    shapeOK k (nx + nu) (rowsOf M) := by
  constructor
  · simp [rowsOf]
  · intro r hr
    rw [rowsOf, List.mem_ofFn] at hr
    obtain ⟨i, rfl⟩ := hr
    simp

theorem frob_nonneg {I J : Type} [Fintype I] [Fintype J]
    (M : Matrix I J ℚ) : 0 ≤ frob M :=
  Finset.sum_nonneg fun i _ => Finset.sum_nonneg fun j _ => sq_nonneg (M i j)

theorem eq_zero_of_frob_le_zero {I J : Type} [Fintype I] [Fintype J]
    {M : Matrix I J ℚ} (h : frob M ≤ 0) : M = 0 := by
  have h0 : frob M = 0 := le_antisymm h (frob_nonneg M)
  ext i j
  have h1 := (Finset.sum_eq_zero_iff_of_nonneg
    (fun i _ => Finset.sum_nonneg fun j _ => sq_nonneg (M i j))).mp h0 i
    (Finset.mem_univ i)
  have h2 := (Finset.sum_eq_zero_iff_of_nonneg
    (fun j _ => sq_nonneg (M i j))).mp h1 j (Finset.mem_univ j)
  simpa using sq_eq_zero_iff.mp h2

/-- The minimum-norm matrix `M0C1` really is a least-squares solution of
the concrete rank-deficient stacked system: it attains residual zero. -/
theorem lstsqC1_minimizes :
    IsLstsqSol (MbpDynamics.zoStack dxC1 duC1 0)
      (MbpDynamics.zoRhs mC1 xC1 uC1 dxC1 duC1) M0C1 := by
  have hz : MbpDynamics.zoStack dxC1 duC1 0 * M0C1 -
      MbpDynamics.zoRhs mC1 xC1 uC1 dxC1 duC1 = 0 := by
    ext r j
    rcases r with i | i
    · fin_cases j <;>
        simp [MbpDynamics.zoStack, MbpDynamics.zoRhs, Matrix.mul_apply,
          Fintype.sum_sum_type, M0C1, dxC1, duC1, mC1, xC1, uC1,
          Fin.sum_univ_succ]
    · simp [MbpDynamics.zoStack, MbpDynamics.zoRhs, Matrix.mul_apply]
  intro N
  rw [hz]
  have h0 : frob (0 : Matrix (Fin 1 ⊕ XU 3 2) (Fin 3) ℚ) = 0 := by
    simp [frob]
  rw [h0]
  exact frob_nonneg _

end DilqrRs

/-! ### Claim theorems -/

namespace DilqrRs

/-- C9: `MbpDynamics.dynamics_py` and `MbpDynamics.dynamics` are
equivalent: from the same adapter state, for every state `x`, control `u`
and any (ignored) `mode` argument, both return the same next state and the
same updated adapter state, whose `simulator_time` is advanced by exactly
`h`. -/
theorem mbp_dynamics_py_eq_dynamics {nx nu : ℕ} {S : Type}
    (m : MbpDynamics.SimModel nx nu S) (st : MbpDynamics.SimState S)
    (x : Vec nx) (u : Vec nu) (mode : String) (requires_grad : Bool) :
    MbpDynamics.dynamics_py m st x u mode requires_grad
      = MbpDynamics.dynamics m st x u requires_grad
    ∧ (MbpDynamics.dynamics m st x u requires_grad).2.simulator_time
      = st.simulator_time + m.h :=
  ⟨rfl, rfl⟩

/-- C5: batch dynamics evaluation equals the elementwise sequence of
single-pair dynamics calls: row `i` of `PendulumDynamics.dynamics_batch_np`
equals `PendulumDynamics.dynamics_np` at `(x_i, u_i)`, and row `i` of
`QuasistaticDynamics.dynamics_batch` equals `QuasistaticDynamics.dynamics`
at `(x_i, u_i)`, for every batch and every `i`. -/
theorem dynamics_batch_eq_elementwise :
    (∀ (p : PendulumDynamics.Model) (B : ℕ) (x : Fin B → Vec 2)
        (u : Fin B → Vec 1) (b : Fin B),
      PendulumDynamics.dynamics_batch_np p x u b
        = PendulumDynamics.dynamics_np p (x b) (u b))
    ∧ (∀ (nx nu : ℕ) (d : QuasistaticDynamics.Model nx nu) (B : ℕ)
        (x : Fin B → Vec nx) (u : Fin B → Vec nu) (i : Fin B),
      QuasistaticDynamics.dynamics_batch d x u i
        = d.dynamics (x i) (u i)) := by
  constructor
  · intro p B x u b
    rfl
  · intro nx nu d B x u i
    exact foldl_update_of_mem _ _ _ _ (List.nodup_finRange B)
      (List.mem_finRange i)

/-- C10: `PendulumDynamics.dynamics_batch_torch` reads bicycle-model
columns (`x[:, 2]`, `x[:, 3]`, `x[:, 4]`, `u[:, 1]`), so on every input
batch of the pendulum's declared dimensions (`dim_x = 2`, `dim_u = 1`) it
fails with an out-of-bounds index error (`none`) instead of returning a
next-state batch, and in particular never agrees with
`dynamics_batch_np`. -/
theorem pendulum_dynamics_batch_torch_always_fails
    (p : PendulumDynamics.Model) {B : ℕ} (x : Fin B → Vec 2)
    (u : Fin B → Vec 1) :
    PendulumDynamics.dynamics_batch_torch p x u = none
    ∧ PendulumDynamics.dynamics_batch_torch p x u
        ≠ some (PendulumDynamics.dynamics_batch_np p x u) := by
  have h : PendulumDynamics.dynamics_batch_torch p x u = none := rfl
  exact ⟨h, by rw [h]; exact fun hc => Option.noConfusion hc⟩

/-- C8: for every mode string other than the four recognized ones,
`calc_AB_batch` raises no error and returns the untouched all-zeros
result array — a silently wrong linearization rather than a surfaced
configuration error. -/
theorem calc_AB_batch_unknown_mode_returns_zeros {nx nu n n_samples : ℕ}
    (m : MbpDynamics.Model nx nu)
    (lstsqJ : Matrix (Fin n_samples ⊕ XU nx nu) (XU nx nu) ℚ →
      Matrix (Fin n_samples ⊕ XU nx nu) (Fin nx) ℚ →
      Matrix (XU nx nu) (Fin nx) ℚ)
    (lstsqB : Matrix (Fin n_samples) (Fin nu) ℚ →
      Matrix (Fin n_samples) (Fin nx) ℚ → Matrix (Fin nu) (Fin nx) ℚ)
    (x_nominals : Fin n → Vec nx) (u_nominals : Fin n → Vec nu)
    (dxs : Fin n → Fin n_samples → Vec nx)
    (dus duAs : Fin n → Fin n_samples → Vec nu)
    (damp : ℚ) (mode : String)
    (h1 : mode ≠ "first_order") (h2 : mode ≠ "zero_order_B")
    (h3 : mode ≠ "zero_order_AB") (h4 : mode ≠ "exact") :
    MbpDynamics.calc_AB_batch m lstsqJ lstsqB x_nominals u_nominals
      dxs dus duAs damp mode = fun _ => 0 := by
  unfold MbpDynamics.calc_AB_batch
  rw [if_neg h1, if_neg h2, if_neg h3, if_neg h4]

/-- Witness for C8 at the docstring's misspelled mode string "exact.". -/
theorem calc_AB_batch_unknown_mode_returns_zeros_holds :
    MbpDynamics.calc_AB_batch mW lstsqJW lstsqBW (fun _ : Fin 1 => xW)
      (fun _ => uW) (fun _ _ => xW) (fun _ => duW) (fun _ => duW) 0 "exact."
      = fun _ => 0 :=
  calc_AB_batch_unknown_mode_returns_zeros mW lstsqJW lstsqBW
    (fun _ : Fin 1 => xW) (fun _ => uW) (fun _ _ => xW) (fun _ => duW)
    (fun _ => duW) 0 "exact."
    (by decide) (by decide) (by decide) (by decide)

/-- C2: `calc_AB_zero_order` returns the transpose of the least-squares
solution of the stacked, Tikhonov-damped system the spec describes: first
`n_samples` rows `[dx_i, du_i] · M ≈ f(x + dx_i, u + du_i) − f(x, u)`,
remaining `n_x + n_u` rows `damp · I · M ≈ 0`. -/
theorem calc_AB_zero_order_solves_spec_system {nx nu n_samples : ℕ}
    (m : MbpDynamics.Model nx nu)
    (lstsq : Matrix (Fin n_samples ⊕ XU nx nu) (XU nx nu) ℚ →
      Matrix (Fin n_samples ⊕ XU nx nu) (Fin nx) ℚ →
      Matrix (XU nx nu) (Fin nx) ℚ)
    (x_nominal : Vec nx) (u_nominal : Vec nu)
    (dx : Fin n_samples → Vec nx) (du : Fin n_samples → Vec nu)
    (damp : ℚ) :
    MbpDynamics.calc_AB_zero_order m lstsq x_nominal u_nominal dx du damp
      = Matrix.transpose (lstsq (MbpDynamics.specStack dx du damp)
          (MbpDynamics.specRhs m x_nominal u_nominal dx du)) := by
  have hA : MbpDynamics.zoStack dx du damp
      = @MbpDynamics.specStack nx nu n_samples dx du damp := by
    ext r c
    rcases r with i | i
    · rcases c with j | j <;> rfl
    · by_cases h : i = c <;>
        simp [MbpDynamics.zoStack, MbpDynamics.specStack, Matrix.one_apply, h]
  have hB : MbpDynamics.zoRhs m x_nominal u_nominal dx du
      = MbpDynamics.specRhs m x_nominal u_nominal dx du := by
    ext r j
    rcases r with i | i <;> rfl
  unfold MbpDynamics.calc_AB_zero_order
  rw [hA, hB]

/-- C4: `calc_AB_first_order` returns exactly the arithmetic mean of the
exact Jacobians evaluated at the `n_samples` perturbed controls, with the
state held at the nominal for every sample. -/
theorem calc_AB_first_order_eq_mean {nx nu n_samples : ℕ}
    (m : MbpDynamics.Model nx nu) (x_nominal : Vec nx) (u_nominal : Vec nu)
    (du : Fin n_samples → Vec nu) (hns : 1 ≤ n_samples) :
    MbpDynamics.calc_AB_first_order m x_nominal u_nominal du
      = (n_samples : ℚ)⁻¹ •
          ∑ i, m.jacobian_xu x_nominal (u_nominal + du i) := by
  unfold MbpDynamics.calc_AB_first_order
  rw [foldl_add_eq_sum]
  ext i j
  simp [Matrix.sum_apply, div_eq_inv_mul]

/-- Witness for C4 at a concrete one-sample instance. -/
theorem calc_AB_first_order_eq_mean_holds :
    1 ≤ 1 ∧
    MbpDynamics.calc_AB_first_order mW xW uW duW
      = ((1 : ℕ) : ℚ)⁻¹ • ∑ i : Fin 1, mW.jacobian_xu xW (uW + duW i) :=
  ⟨le_refl 1, calc_AB_first_order_eq_mean mW xW uW duW (le_refl 1)⟩

/-- C3: the `A` block of `calc_B_zero_order` equals the `A` block of the
first-order estimate at the same nominal pair; the `B` block is the
transposed least-squares solution of
`du · Bᵀ ≈ f(x, u + du_i) − f(x, u)`; and the `B` block uses no gradient
of the dynamics: it is unchanged under any replacement of the Jacobian
collaborator that keeps the transition function. -/
theorem calc_B_zero_order_blocks {nx nu n_samples : ℕ}
    (m : MbpDynamics.Model nx nu)
    (lstsq : Matrix (Fin n_samples) (Fin nu) ℚ →
      Matrix (Fin n_samples) (Fin nx) ℚ → Matrix (Fin nu) (Fin nx) ℚ)
    (x_nominal : Vec nx) (u_nominal : Vec nu)
    (du_A du : Fin n_samples → Vec nu) :
    (∀ i j, MbpDynamics.calc_B_zero_order m lstsq x_nominal u_nominal
        du_A du i (Sum.inl j)
      = MbpDynamics.calc_AB_first_order m x_nominal u_nominal du_A
          i (Sum.inl j))
    ∧ (∀ i j, MbpDynamics.calc_B_zero_order m lstsq x_nominal u_nominal
        du_A du i (Sum.inr j)
      = Matrix.transpose (lstsq du (Matrix.of fun s k =>
          m.dynamics x_nominal (u_nominal + du s) k
            - m.dynamics x_nominal u_nominal k)) i j)
    ∧ (∀ m' : MbpDynamics.Model nx nu, m.dynamics = m'.dynamics →
        ∀ i j, MbpDynamics.calc_B_zero_order m lstsq x_nominal u_nominal
            du_A du i (Sum.inr j)
          = MbpDynamics.calc_B_zero_order m' lstsq x_nominal u_nominal
              du_A du i (Sum.inr j)) := by
  refine ⟨fun i j => rfl, fun i j => rfl, ?_⟩
  intro m' hdyn i j
  simp only [MbpDynamics.calc_B_zero_order, Matrix.of_apply, hdyn]

/-- Witness for C3: the `B` block is unchanged when the Jacobian
collaborator is replaced (constant-one Jacobian vs zero Jacobian) while
the transition function is kept. -/
theorem calc_B_zero_order_blocks_holds :
    MbpDynamics.calc_B_zero_order mW lstsqBW xW uW duW duW 0 (Sum.inr 0)
      = MbpDynamics.calc_B_zero_order mW' lstsqBW xW uW duW duW 0
          (Sum.inr 0) :=
  (calc_B_zero_order_blocks mW lstsqBW xW uW duW duW).2.2 mW' rfl 0 0

/-- C7: every linearization operation returns a matrix of numpy shape
`(n_x, n_x + n_u)` — an `A` block of `n_x × n_x` columns followed by a
`B` block of `n_x × n_u` columns — and every entry of `calc_AB_batch`
has that same shape, with the batch length equal to the number of
nominal pairs; the `(n_x, n_u)` dimensions fixed at construction are
never resized. -/
theorem linearization_output_shapes {nx nu n n_samples : ℕ}
    (m : MbpDynamics.Model nx nu)
    (lstsqJ : Matrix (Fin n_samples ⊕ XU nx nu) (XU nx nu) ℚ →
      Matrix (Fin n_samples ⊕ XU nx nu) (Fin nx) ℚ →
      Matrix (XU nx nu) (Fin nx) ℚ)
    (lstsqB : Matrix (Fin n_samples) (Fin nu) ℚ →
      Matrix (Fin n_samples) (Fin nx) ℚ → Matrix (Fin nu) (Fin nx) ℚ)
    (x_nominal : Vec nx) (u_nominal : Vec nu)
    (dx : Fin n_samples → Vec nx) (du_A du : Fin n_samples → Vec nu)
    (x_nominals : Fin n → Vec nx) (u_nominals : Fin n → Vec nu)
    (dxs : Fin n → Fin n_samples → Vec nx)
    (dus duAs : Fin n → Fin n_samples → Vec nu)
    (damp : ℚ) (mode : String) :
    shapeOK nx (nx + nu)
      (rowsOf (MbpDynamics.calc_AB_exact m x_nominal u_nominal))
    ∧ shapeOK nx (nx + nu)
      (rowsOf (MbpDynamics.calc_AB_first_order m x_nominal u_nominal du))
    ∧ shapeOK nx (nx + nu)
      (rowsOf (MbpDynamics.calc_B_zero_order m lstsqB x_nominal u_nominal
        du_A du))
    ∧ shapeOK nx (nx + nu)
      (rowsOf (MbpDynamics.calc_AB_zero_order m lstsqJ x_nominal u_nominal
        dx du damp))
    ∧ (List.ofFn fun i =>
        rowsOf (MbpDynamics.calc_AB_batch m lstsqJ lstsqB x_nominals
          u_nominals dxs dus duAs damp mode i)).length = n
    ∧ ∀ rs ∈ (List.ofFn fun i =>
        rowsOf (MbpDynamics.calc_AB_batch m lstsqJ lstsqB x_nominals
          u_nominals dxs dus duAs damp mode i)),
        shapeOK nx (nx + nu) rs := by
  refine ⟨rowsOf_shape _, rowsOf_shape _, rowsOf_shape _, rowsOf_shape _,
    by simp, ?_⟩
  intro rs hrs
  rw [List.mem_ofFn] at hrs
  obtain ⟨i, rfl⟩ := hrs
  exact rowsOf_shape _

end DilqrRs

namespace DilqrRs

/-- C1 counterexample: at the spec's own scenario (`n_samples = 1`,
`n_x + n_u = 5`, zero damping, rank-deficient) the spec-side contract
raises the rank-deficiency failure, but the source `calc_AB_zero_order`
does not: it returns the (minimum-norm) least-squares estimate — here the
transpose of `M0C1` (see `lstsqC1_minimizes`). -/
theorem calc_AB_zero_order_rank_deficient_returns :
    MbpDynamics.calc_AB_zero_order_specContract mC1 lstsqC1 xC1 uC1
        dxC1 duC1 0
      = Except.error EstimationError.rankDeficiency
    ∧ MbpDynamics.calc_AB_zero_order mC1 lstsqC1 xC1 uC1 dxC1 duC1 0
      = Matrix.transpose M0C1 := by
  constructor
  · rw [MbpDynamics.calc_AB_zero_order_specContract,
      if_pos ⟨by norm_num, rfl⟩]
  · rfl

/-- C1 amended: with `n_samples < n_x + n_u` and zero damping,
`calc_AB_zero_order` does not raise — it still returns the transpose of
the `lstsq` solution of the stacked system, the rank deficiency being
resolved inside `np.linalg.lstsq`; and whenever the damping weight is
nonzero the stacked matrix has full column rank (its `mulVec` is
injective), so the damped least-squares solution is well defined
(unique). -/
theorem calc_AB_zero_order_never_raises {nx nu n_samples : ℕ}
    (m : MbpDynamics.Model nx nu)
    (lstsq : Matrix (Fin n_samples ⊕ XU nx nu) (XU nx nu) ℚ →
      Matrix (Fin n_samples ⊕ XU nx nu) (Fin nx) ℚ →
      Matrix (XU nx nu) (Fin nx) ℚ)
    (x_nominal : Vec nx) (u_nominal : Vec nu)
    (dx : Fin n_samples → Vec nx) (du : Fin n_samples → Vec nu)
    (hsmall : n_samples < nx + nu) :
    MbpDynamics.calc_AB_zero_order m lstsq x_nominal u_nominal dx du 0
      = Matrix.transpose (lstsq (MbpDynamics.zoStack dx du 0)
          (MbpDynamics.zoRhs m x_nominal u_nominal dx du))
    ∧ ∀ damp : ℚ, damp ≠ 0 →
        Function.Injective (MbpDynamics.zoStack dx du damp).mulVec := by
  refine ⟨rfl, ?_⟩
  intro damp hdamp v w hvw
  funext c
  have h := congrFun hvw (Sum.inr c)
  simp [MbpDynamics.zoStack, Matrix.mulVec, Matrix.dotProduct,
    ite_mul] at h
  exact h.resolve_right hdamp

/-- Witness for the amended C1, at the concrete rank-deficient scenario
(`n_samples = 1 < 5 = n_x + n_u`) and at damping weight `1`. -/
theorem calc_AB_zero_order_never_raises_holds :
    MbpDynamics.calc_AB_zero_order mC1 lstsqC1 xC1 uC1 dxC1 duC1 0
      = Matrix.transpose (lstsqC1 (MbpDynamics.zoStack dxC1 duC1 0)
          (MbpDynamics.zoRhs mC1 xC1 uC1 dxC1 duC1))
    ∧ Function.Injective (MbpDynamics.zoStack dxC1 duC1 1).mulVec := by
  have h := calc_AB_zero_order_never_raises mC1 lstsqC1 xC1 uC1 dxC1 duC1
    (by norm_num)
  exact ⟨h.1, h.2 1 one_ne_zero⟩

end DilqrRs

namespace DilqrRs

/-- C6: if the one-step dynamics is exactly linear,
`f(x, u) = A·x + B·u`, then for every set of perturbation draws whose
stacked matrix `[dx, du]` has full column rank (its `mulVec` is
injective), `calc_AB_zero_order` with damping `0` — applied to any
least-squares solver satisfying the residual-minimizer contract of
`np.linalg.lstsq` — returns exactly `[A, B]`. -/
theorem calc_AB_zero_order_recovers_linear {nx nu n_samples : ℕ}
    (m : MbpDynamics.Model nx nu)
    (lstsq : Matrix (Fin n_samples ⊕ XU nx nu) (XU nx nu) ℚ →
      Matrix (Fin n_samples ⊕ XU nx nu) (Fin nx) ℚ →
      Matrix (XU nx nu) (Fin nx) ℚ)
    (A : Matrix (Fin nx) (Fin nx) ℚ) (Bm : Matrix (Fin nx) (Fin nu) ℚ)
    (hf : ∀ x u, m.dynamics x u = A.mulVec x + Bm.mulVec u)
    (x_nominal : Vec nx) (u_nominal : Vec nu)
    (dx : Fin n_samples → Vec nx) (du : Fin n_samples → Vec nu)
    (hrank : Function.Injective (MbpDynamics.zoTop dx du).mulVec)
    (hls : IsLstsqSol (MbpDynamics.zoStack dx du 0)
      (MbpDynamics.zoRhs m x_nominal u_nominal dx du)
      (lstsq (MbpDynamics.zoStack dx du 0)
        (MbpDynamics.zoRhs m x_nominal u_nominal dx du))) :
    MbpDynamics.calc_AB_zero_order m lstsq x_nominal u_nominal dx du 0
      = Matrix.of fun i => Sum.elim (A i) (Bm i) := by
  set S := MbpDynamics.zoStack dx du 0 with hS
  set R := MbpDynamics.zoRhs m x_nominal u_nominal dx du with hR
  set M := lstsq S R with hM
  set M₀ : Matrix (XU nx nu) (Fin nx) ℚ :=
    Matrix.transpose (Matrix.of fun i => Sum.elim (A i) (Bm i)) with hM0
  have hexact : S * M₀ = R := by
    ext r j
    rcases r with i | i
    · have hLHS : (S * M₀) (Sum.inl i) j
          = (∑ k, dx i k * A j k) + ∑ k, du i k * Bm j k := by
        simp [hS, hM0, MbpDynamics.zoStack, Matrix.mul_apply,
          Fintype.sum_sum_type, Matrix.transpose_apply]
      have hRHS : R (Sum.inl i) j
          = (∑ k, A j k * dx i k) + ∑ k, Bm j k * du i k := by
        simp [hR, MbpDynamics.zoRhs, hf, Matrix.mulVec, Matrix.dotProduct,
          mul_add, Finset.sum_add_distrib]
        ring
      rw [hLHS, hRHS]
      congr 1
      · exact Finset.sum_congr rfl fun k _ => mul_comm _ _
      · exact Finset.sum_congr rfl fun k _ => mul_comm _ _
    · simp [hS, hR, MbpDynamics.zoStack, MbpDynamics.zoRhs,
        Matrix.mul_apply]
  have hres : frob (S * M - R) ≤ 0 := by
    have h1 := hls M₀
    rw [hexact, sub_self] at h1
    have h0 : frob (0 : Matrix (Fin n_samples ⊕ XU nx nu) (Fin nx) ℚ)
        = 0 := by simp [frob]
    rw [h0] at h1
    exact h1
  have hSM : S * M = R := sub_eq_zero.mp (eq_zero_of_frob_le_zero hres)
  have htop : ∀ (N : Matrix (XU nx nu) (Fin nx) ℚ) (i : Fin n_samples)
      (j : Fin nx),
      (S * N) (Sum.inl i) j
        = (MbpDynamics.zoTop dx du).mulVec (fun c => N c j) i := by
    intro N i j
    simp only [hS, Matrix.mul_apply, Matrix.mulVec, Matrix.dotProduct]
    refine Finset.sum_congr rfl fun c _ => ?_
    congr 1
    rcases c with c | c <;> rfl
  have hcols : ∀ j, (fun c => M c j) = (fun c => M₀ c j) := by
    intro j
    apply hrank
    funext i
    rw [← htop M i j, ← htop M₀ i j, hSM, hexact]
  have hMM0 : M = M₀ := by
    ext c j
    exact congrFun (hcols j) c
  show Matrix.transpose M = Matrix.of fun i => Sum.elim (A i) (Bm i)
  rw [hMM0, hM0, Matrix.transpose_transpose]

end DilqrRs

namespace DilqrRs

/-- Witness for C6 at a concrete noise-free linear system
(`n_x = n_u = 1`, `n_samples = 2`, stacked `[dx, du]` the identity):
the zero-order joint estimator with zero damping recovers `[A, B] = [2, 3]`
exactly. -/
theorem calc_AB_zero_order_recovers_linear_holds :
    MbpDynamics.calc_AB_zero_order mC6 lstsqC6 xC6 uC6 dxC6 duC6 0
      = Matrix.of fun i => Sum.elim (AC6 i) (BC6 i) := by
  apply calc_AB_zero_order_recovers_linear mC6 lstsqC6 AC6 BC6
    (fun x u => rfl) xC6 uC6 dxC6 duC6
  · intro v w hvw
    funext c
    have h0 := congrFun hvw 0
    have h1 := congrFun hvw 1
    simp [MbpDynamics.zoTop, Matrix.mulVec, Matrix.dotProduct,
      Fintype.sum_sum_type, dxC6, duC6, Fin.sum_univ_succ] at h0 h1
    rcases c with c | c
    · have hc : c = 0 := Subsingleton.elim c 0
      rw [hc]
      exact h0
    · have hc : c = 0 := Subsingleton.elim c 0
      rw [hc]
      exact h1
  · have hz : MbpDynamics.zoStack dxC6 duC6 0 * M0C6 -
        MbpDynamics.zoRhs mC6 xC6 uC6 dxC6 duC6 = 0 := by
      ext r j
      rcases r with i | i
      · fin_cases i <;>
          simp [MbpDynamics.zoStack, MbpDynamics.zoRhs, Matrix.mul_apply,
            Fintype.sum_sum_type, M0C6, dxC6, duC6, mC6, xC6, uC6, AC6, BC6,
            Matrix.mulVec, Matrix.dotProduct, Fin.sum_univ_succ]
      · simp [MbpDynamics.zoStack, MbpDynamics.zoRhs, Matrix.mul_apply]
    intro N
    have hlq : lstsqC6 (MbpDynamics.zoStack dxC6 duC6 0)
        (MbpDynamics.zoRhs mC6 xC6 uC6 dxC6 duC6) = M0C6 := rfl
    rw [hlq, hz]
    have h0 : frob (0 : Matrix (Fin 2 ⊕ XU 1 1) (Fin 1) ℚ) = 0 := by
      simp [frob]
    rw [h0]
    exact frob_nonneg _

end DilqrRs
